import Mathlib

/-!
Shallow embedding of an elliptic-curve cryptography core (prime-field
arithmetic, short Weierstrass point arithmetic, ECDSA) and proofs about it.

Rust `Result<T, &str>` values are embedded as `Res`; a Rust panic
(`assert!` failure or `BigUint` underflow / division by a zero modulus)
is the distinguished outcome `Res.panicked`, kept separate from the
`Res.err` error channel so that "returns an error" and "panics" are
distinguishable propositions.

External collaborators (the OS random source and SHA-256) are not part of
the embedded code: functions that consume a nonce or a message digest take
the drawn nonce `k` and the digest-as-integer `hash` as explicit arguments.
-/

inductive Res (α : Type) where
  | ok : α → Res α
  | err : String → Res α
  | panicked : Res α
deriving DecidableEq

def Res.bind {α β : Type} : Res α → (α → Res β) → Res β
  | .ok a, f => f a
  | .err s, _ => .err s
  | .panicked, _ => .panicked

/-- A big-unsigned integer together with the modulus it belongs to
(struct `FiniteField` of `finite_field.rs`). -/
structure FiniteField where
  value : Nat
  p : Nat
deriving DecidableEq

/-- `FiniteField::new`: asserts `value < p` (assertion failure = panic),
then stores `value % p`. -/
def FiniteField.new (value p : Nat) : Res FiniteField :=
  if value < p then .ok ⟨value % p, p⟩ else .panicked

/-- `FiniteField::add`: `(a + b) mod p`, failing on mismatched moduli. -/
def FiniteField.add (a b : FiniteField) : Res FiniteField :=
  if a.p ≠ b.p then .err "Operands must be from the same field (p should be the same)"
  else .ok ⟨(a.value + b.value) % a.p, a.p⟩

/-- `FiniteField::sub`: `(a + p - b) mod p`; the `BigUint` subtraction
underflows (panics) when `b.value > a.value + p`. -/
def FiniteField.sub (a b : FiniteField) : Res FiniteField :=
  if a.p ≠ b.p then .err "Operands must be from the same field (p should be the same)"
  else if a.value + a.p < b.value then .panicked
  else .ok ⟨(a.value + a.p - b.value) % a.p, a.p⟩

/-- `FiniteField::mul`: `(a * b) mod p`. -/
def FiniteField.mul (a b : FiniteField) : Res FiniteField :=
  if a.p ≠ b.p then .err "Operands must be from the same field (p should be the same)"
  else .ok ⟨(a.value * b.value) % a.p, a.p⟩

/-- `FiniteField::div`: `a * b^(p-2) mod p` (Fermat inverse); fails on a zero
divisor.  The exponent `p - 2` is a `BigUint` subtraction, which underflows
(panics) when `p < 2`; `modpow` is the external big-integer collaborator,
modelled as `b ^ e % p`. -/
def FiniteField.div (a b : FiniteField) : Res FiniteField :=
  if a.p ≠ b.p then .err "Operands must be from the same field (p should be the same)"
  else if b.value = 0 then .err "Cannot divide by zero"
  else if a.p < 2 then .panicked
  else .ok ⟨(a.value * (b.value ^ (a.p - 2) % a.p)) % a.p, a.p⟩

/-- `enum Point` of `elliptic_curve.rs`: the group identity or an affine pair. -/
inductive Point where
  | Coor : FiniteField → FiniteField → Point
  | Identity : Point
deriving DecidableEq

/-- `struct EllipticCurve`: `y^2 = x^3 + a*x + b mod p` with base point `g`. -/
structure EllipticCurve where
  a : FiniteField
  b : FiniteField
  p : Nat
  g : Point
deriving DecidableEq

/-- `EllipticCurve::is_on_curve`: identity is on the curve; an affine pair is
on the curve iff `y^2 = x^3 + a*x + b` in the field arithmetic. -/
def EllipticCurve.is_on_curve (ec : EllipticCurve) (c : Point) : Res Bool :=
  match c with
  | .Identity => .ok true
  | .Coor x y =>
    (y.mul y).bind fun y_squared =>
    ((x.mul x).bind fun xx => xx.mul x).bind fun x_cubed =>
    (ec.a.mul x).bind fun ax =>
    ((x_cubed.add ax).bind fun t => t.add ec.b).bind fun right_side =>
    .ok (y_squared == right_side)

/-- `EllipticCurve::compute_x3_y3`: `x3 = s^2 - x1 - x2`,
`y3 = s*(x1 - x3) - y1`, with the internal on-curve postcondition check. -/
def EllipticCurve.compute_x3_y3 (ec : EllipticCurve) (x1 y1 x2 s : FiniteField) :
    Res (FiniteField × FiniteField) :=
  (s.mul s).bind fun s_squared =>
  (x1.add x2).bind fun x1_plus_x2 =>
  (s_squared.sub x1_plus_x2).bind fun x3 =>
  (x1.sub x3).bind fun x1_minus_x3 =>
  (s.mul x1_minus_x3).bind fun s_times_x1_minus_x3 =>
  (s_times_x1_minus_x3.sub y1).bind fun y3 =>
  (ec.is_on_curve (.Coor x3 y3)).bind fun onc =>
  if onc = false then .err "Resulting point is not on the curve"
  else .ok (x3, y3)

/-- `EllipticCurve::add`: point addition.  Both operands must pass the
on-curve check; identity is neutral; inverse points give the identity;
otherwise the chord slope `(y2 - y1)/(x2 - x1)` is used.  The `&&` in the
inverse test short-circuits, so `y1.add(&y2)?` and `FiniteField::new(0, p)`
run only when `x1 == x2`. -/
def EllipticCurve.add (ec : EllipticCurve) (c d : Point) : Res Point :=
  (ec.is_on_curve c).bind fun c_on =>
  if c_on = false then .err "Point is not on the curve" else
  (ec.is_on_curve d).bind fun d_on =>
  if d_on = false then .err "Point is not on the curve" else
  match c, d with
  | .Identity, _ => .ok d
  | _, .Identity => .ok c
  | .Coor x1 y1, .Coor x2 y2 =>
    (if x1 = x2 then
      (y1.add y2).bind fun ysum =>
      (FiniteField.new 0 ec.p).bind fun zero =>
      .ok (ysum == zero)
    else .ok false).bind fun is_inverse =>
    if is_inverse then .ok .Identity
    else
      (y2.sub y1).bind fun slope_num =>
      (x2.sub x1).bind fun slope_den =>
      (slope_num.div slope_den).bind fun s =>
      (ec.compute_x3_y3 x1 y1 x2 s).bind fun xy =>
      .ok (.Coor xy.1 xy.2)

/-- `EllipticCurve::double`: tangent slope `(3*x1^2 + a)/(2*y1)`. -/
def EllipticCurve.double (ec : EllipticCurve) (c : Point) : Res Point :=
  (ec.is_on_curve c).bind fun c_on =>
  if c_on = false then .err "Point is not on the curve" else
  match c with
  | .Identity => .ok .Identity
  | .Coor x1 y1 =>
    (x1.mul x1).bind fun x_squared =>
    (FiniteField.new 3 ec.p).bind fun three =>
    (x_squared.mul three).bind fun three_times_x_squared =>
    (three_times_x_squared.add ec.a).bind fun slope_num =>
    (FiniteField.new 2 ec.p).bind fun two =>
    (y1.mul two).bind fun two_y1 =>
    (slope_num.div two_y1).bind fun s =>
    (ec.compute_x3_y3 x1 y1 x1 s).bind fun xy =>
    .ok (.Coor xy.1 xy.2)

/-- `EllipticCurve::scalar_mul`, recursion made structural on a fuel
parameter.  Each recursive call of the source strictly decreases the scalar
(`s - 1` when odd, `s / 2` when even), so fuel `s + 1` (used by
`scalar_mul` below) always suffices and the fuel-exhausted branch is
unreachable from `scalar_mul`. -/
def EllipticCurve.scalar_mulF (ec : EllipticCurve) : Nat → Point → Nat → Res Point
  | 0, _, _ => .err "recursion fuel exhausted"
  | fuel + 1, P, s =>
    (ec.is_on_curve P).bind fun p_on =>
    if p_on = false then .err "Point is not on the curve"
    else if s = 0 then .ok .Identity
    else if s = 1 then .ok P
    else if s % 2 = 1 then
      (ec.scalar_mulF fuel P (s - 1)).bind fun scalar_mul_result =>
      ec.add P scalar_mul_result
    else
      (ec.double P).bind fun double_result =>
      ec.scalar_mulF fuel double_result (s / 2)

/-- `EllipticCurve::scalar_mul`: `s * P` by the source's recursive
double-and-add. -/
def EllipticCurve.scalar_mul (ec : EllipticCurve) (P : Point) (s : Nat) : Res Point :=
  ec.scalar_mulF (s + 1) P s

/-- `calculate_s_field` of `ecdsa.rs`: `s = (e + r*d) / k` in the field of
modulus `p`. -/
def calculate_s_field (hash_field r_field private_key_field : FiniteField)
    (k p : Nat) : Res FiniteField :=
  (FiniteField.new k p).bind fun k_field =>
  (r_field.mul private_key_field).bind fun rd =>
  (hash_field.add rd).bind fun num =>
  num.div k_field

/-- `EcdsaSignature::sign`.  The SHA-256 digest of the message (`hash`) and
the drawn nonce (`k`) are parameters standing for the external hash and RNG
collaborators; the returned pair is `(r, s)` as raw integers. -/
def EcdsaSignature.sign (ec : EllipticCurve) (hash private_key k : Nat) :
    Res (Nat × Nat) :=
  (ec.scalar_mul ec.g k).bind fun r_point =>
  match r_point with
  | .Coor x _ =>
    (FiniteField.new x.value ec.p).bind fun r_field =>
    (FiniteField.new private_key ec.p).bind fun private_key_field =>
    (FiniteField.new hash ec.p).bind fun hash_field =>
    (calculate_s_field hash_field r_field private_key_field k ec.p).bind fun s_field =>
    .ok (r_field.value, s_field.value)
  | .Identity => .err "Invalid r_point generated"

/-- The point-valued prefix of `EcdsaSignature::verify`: everything up to and
including `P = u1*G + u2*Q`. -/
def EcdsaSignature.verifyP (ec : EllipticCurve) (hash : Nat) (public_key : Point)
    (r s : Nat) : Res Point :=
  (FiniteField.new hash ec.p).bind fun hash_field =>
  (FiniteField.new s ec.p).bind fun signature_s_field =>
  (FiniteField.new 1 ec.p).bind fun one_field =>
  (one_field.div signature_s_field).bind fun w =>
  (hash_field.mul w).bind fun u1 =>
  (FiniteField.new r ec.p).bind fun r_field =>
  (r_field.mul w).bind fun u2 =>
  (ec.scalar_mul ec.g u1.value).bind fun u1_point =>
  (ec.scalar_mul public_key u2.value).bind fun u2_point =>
  ec.add u1_point u2_point

/-- `EcdsaSignature::verify`: compares the x-coordinate of `verifyP`'s point
with `r`; an identity result is turned into an error by the source. -/
def EcdsaSignature.verify (ec : EllipticCurve) (hash : Nat) (public_key : Point)
    (r s : Nat) : Res Bool :=
  (EcdsaSignature.verifyP ec hash public_key r s).bind fun p =>
  match p with
  | .Coor x _ => (FiniteField.new r ec.p).bind fun rf => .ok (x == rf)
  | .Identity => .err "Invalid point generated in verification"

/-- The toy curve of the source's tests and the spec's concrete scenarios:
`y^2 = x^3 + 2x + 2 mod 17` with base point `G = (5, 1)`. -/
def toyCurve : EllipticCurve :=
  { a := ⟨2, 17⟩, b := ⟨2, 17⟩, p := 17, g := .Coor ⟨5, 17⟩ ⟨1, 17⟩ }

/-- Affine point on the toy curve's field. -/
def toyPt (x y : Nat) : Point := .Coor ⟨x, 17⟩ ⟨y, 17⟩

/-! ### Basic inversion and evaluation lemmas -/

theorem Res.ok_of_bind_ok {α β : Type} {x : Res α} {f : α → Res β} {b : β}
    (h : x.bind f = .ok b) : ∃ a, x = .ok a ∧ f a = .ok b := by
  cases x with
  | ok a => exact ⟨a, rfl, h⟩
  | err s => exact Res.noConfusion h
  | panicked => exact Res.noConfusion h

theorem Res.bind_ok_left {α β : Type} {f : α → Res β} (a : α) :
    (Res.ok a).bind f = f a := rfl

theorem FiniteField.add_eval {a b : FiniteField} (h : a.p = b.p) :
    a.add b = .ok ⟨(a.value + b.value) % a.p, a.p⟩ := by
  simp [FiniteField.add, h]

theorem FiniteField.sub_eval {a b : FiniteField} (h : a.p = b.p)
    (hb : b.value ≤ a.value + a.p) :
    a.sub b = .ok ⟨(a.value + a.p - b.value) % a.p, a.p⟩ := by
  unfold FiniteField.sub
  rw [if_neg (by omega), if_neg (by omega)]

theorem FiniteField.mul_eval {a b : FiniteField} (h : a.p = b.p) :
    a.mul b = .ok ⟨(a.value * b.value) % a.p, a.p⟩ := by
  simp [FiniteField.mul, h]

theorem FiniteField.div_eval {a b : FiniteField} (h : a.p = b.p)
    (hb : b.value ≠ 0) (h2 : 2 ≤ a.p) :
    a.div b = .ok ⟨(a.value * (b.value ^ (a.p - 2) % a.p)) % a.p, a.p⟩ := by
  unfold FiniteField.div
  rw [if_neg (by omega), if_neg hb, if_neg (by omega)]

theorem FiniteField.div_zero_eval {a b : FiniteField} (h : a.p = b.p)
    (hb : b.value = 0) : a.div b = .err "Cannot divide by zero" := by
  simp [FiniteField.div, h, hb]

/-! ### Claim theorems: concrete evaluations -/

/-- C1 (code_bug evidence): the ECDSA round-trip fails on the toy curve.
With `d = 2` (so `Q = 2·G = (6,3)`), message hash `e = 3` and nonce draw
`k = 5`, `sign` returns the signature `(9, 11)` but `verify` on that very
signature returns `Ok(false)`: the exponent arithmetic is reduced modulo the
field prime `p = 17` instead of the group order `n = 19` of `G`. -/
theorem c1_roundtrip_fails_toy :
    toyCurve.scalar_mul toyCurve.g 2 = .ok (toyPt 6 3) ∧
    EcdsaSignature.sign toyCurve 3 2 5 = .ok (9, 11) ∧
    EcdsaSignature.verify toyCurve 3 (toyPt 6 3) 9 11 = .ok false := by
  decide

/-- C2 (counterexample): public operations panic on adversarial but
well-typed input.  `verify` with `s = 17 = p` and `sign` with private key
`d = 20 ≥ p` both hit the `assert!(value < p)` of `FiniteField::new` and
panic instead of returning an error kind. -/
theorem c2_panic_counterexample :
    EcdsaSignature.verify toyCurve 1 toyCurve.g 1 17 = .panicked ∧
    EcdsaSignature.sign toyCurve 1 20 1 = .panicked := by
  decide

/-- C3 (counterexample): `scalar_mul` is not total on on-curve points.
`G = (5,1)` passes `is_on_curve`, yet `scalar_mul(G, 21)` returns the
divide-by-zero error: `21` is odd, the recursion computes
`20·G = G` (the order of `G` is 19) and then calls `add(G, G)` with two
equal affine arguments, whose slope denominator is zero. -/
theorem c3_scalar_mul_err_counterexample :
    toyCurve.is_on_curve toyCurve.g = .ok true ∧
    toyCurve.scalar_mul toyCurve.g 20 = .ok toyCurve.g ∧
    toyCurve.scalar_mul toyCurve.g 21 = .err "Cannot divide by zero" := by
  decide

/-- C4 (counterexample): `FiniteField::new(v, p)` with `v ≥ p` does not
succeed with `v mod p`; it panics on the `assert!(value < p)`.
At `v = 7, p = 3` the claimed result would be `Ok(1)`. -/
theorem c4_new_counterexample : FiniteField.new 7 3 = .panicked := by
  decide

/-- C4 (amended): construction succeeds with value `v mod p` exactly when
`v < p`; for `v ≥ p` the assertion fails (panic) instead of reducing. -/
theorem c4_new_eval (v p : Nat) :
    (v < p → FiniteField.new v p = .ok ⟨v % p, p⟩) ∧
    (p ≤ v → FiniteField.new v p = .panicked) := by
  constructor
  · intro h
    simp [FiniteField.new, h]
  · intro h
    simp [FiniteField.new, Nat.not_lt.mpr h]

/-- C4 (witness): the amended claim evaluated at `(2, 5)` and `(7, 3)`. -/
theorem c4_new_eval_witness :
    FiniteField.new 2 5 = .ok ⟨2 % 5, 5⟩ ∧ FiniteField.new 7 3 = .panicked :=
  ⟨(c4_new_eval 2 5).1 (by decide), (c4_new_eval 7 3).2 (by decide)⟩

/-- C5 (code_bug evidence): `sign` does not reject `s = 0`.  On the toy
curve with message hash `e = 12`, private key `d = 1` and nonce `k = 1`,
the nonce point is `G = (5,1)`, so `r = 5` and
`s = (12 + 5·1)/1 = 17 ≡ 0 (mod 17)`; `sign` returns `Ok((5, 0))` instead
of failing with a bad-nonce error. -/
theorem c5_sign_returns_zero_s :
    EcdsaSignature.sign toyCurve 12 1 1 = .ok (5, 0) := by
  decide

/-- C6 (counterexample): when the combined point `P = u1·G + u2·Q` is the
identity, `verify` returns an error, not `Ok(false)`.  On the toy curve with
hash `e = 9`, `Q = G`, `r = 10`, `s = 1`: `u1 = 9`, `u2 = 10`, and
`9·G + 10·G = 19·G = Identity`. -/
theorem c6_identity_counterexample :
    EcdsaSignature.verifyP toyCurve 9 toyCurve.g 10 1 = .ok .Identity ∧
    EcdsaSignature.verify toyCurve 9 toyCurve.g 10 1 ≠ .ok false ∧
    EcdsaSignature.verify toyCurve 9 toyCurve.g 10 1 =
      .err "Invalid point generated in verification" := by
  decide

/-- C6 (amended): whenever the point computed by the verification pipeline
is the identity, `verify` returns the invalid-point error rather than
`Ok(false)`. -/
theorem c6_verify_identity_is_error (ec : EllipticCurve) (hash : Nat)
    (public_key : Point) (r s : Nat)
    (h : EcdsaSignature.verifyP ec hash public_key r s = .ok .Identity) :
    EcdsaSignature.verify ec hash public_key r s =
      .err "Invalid point generated in verification" := by
  unfold EcdsaSignature.verify
  rw [h]
  rfl

/-- C6 (witness): the amended claim applied at the toy-curve input whose
combined point is the identity. -/
theorem c6_verify_identity_is_error_witness :
    EcdsaSignature.verify toyCurve 9 toyCurve.g 10 1 =
      .err "Invalid point generated in verification" :=
  c6_verify_identity_is_error toyCurve 9 toyCurve.g 10 1 (by decide)

/-- C7: the toy-curve scalar-multiple table (`k·G` for `k = 1..10, 18, 19`)
and the five point-addition test identities, exactly as the spec lists
them. -/
theorem c7_toy_table :
    toyCurve.scalar_mul toyCurve.g 1 = .ok (toyPt 5 1) ∧
    toyCurve.scalar_mul toyCurve.g 2 = .ok (toyPt 6 3) ∧
    toyCurve.scalar_mul toyCurve.g 3 = .ok (toyPt 10 6) ∧
    toyCurve.scalar_mul toyCurve.g 4 = .ok (toyPt 3 1) ∧
    toyCurve.scalar_mul toyCurve.g 5 = .ok (toyPt 9 16) ∧
    toyCurve.scalar_mul toyCurve.g 6 = .ok (toyPt 16 13) ∧
    toyCurve.scalar_mul toyCurve.g 7 = .ok (toyPt 0 6) ∧
    toyCurve.scalar_mul toyCurve.g 8 = .ok (toyPt 13 7) ∧
    toyCurve.scalar_mul toyCurve.g 9 = .ok (toyPt 7 6) ∧
    toyCurve.scalar_mul toyCurve.g 10 = .ok (toyPt 7 11) ∧
    toyCurve.scalar_mul toyCurve.g 18 = .ok (toyPt 5 16) ∧
    toyCurve.scalar_mul toyCurve.g 19 = .ok .Identity ∧
    toyCurve.add (toyPt 5 1) (toyPt 6 3) = .ok (toyPt 10 6) ∧
    toyCurve.add (toyPt 5 1) (toyPt 3 1) = .ok (toyPt 9 16) ∧
    toyCurve.add (toyPt 5 1) (toyPt 9 16) = .ok (toyPt 16 13) ∧
    toyCurve.add (toyPt 5 1) (toyPt 16 13) = .ok (toyPt 0 6) ∧
    toyCurve.add (toyPt 5 1) (toyPt 13 7) = .ok (toyPt 7 6) := by
  decide

/-- C10 (counterexample): over the prime modulus `p = 2` the doubling case
of `add` is not a divide-by-zero error.  On `y^2 = x^3 + 1 mod 2` the point
`C = (0, 1)` is on the curve and has `y ≠ 0`, yet `add(C, C)` returns
`Ok(Identity)` (since `y + y ≡ 0 (mod 2)` the inverse branch fires). -/
theorem c10_add_self_counterexample :
    (EllipticCurve.mk ⟨0, 2⟩ ⟨1, 2⟩ 2 (.Coor ⟨0, 2⟩ ⟨1, 2⟩)).is_on_curve
        (.Coor ⟨0, 2⟩ ⟨1, 2⟩) = .ok true ∧
    (1 : Nat) ≠ 0 ∧
    (EllipticCurve.mk ⟨0, 2⟩ ⟨1, 2⟩ 2 (.Coor ⟨0, 2⟩ ⟨1, 2⟩)).add
        (.Coor ⟨0, 2⟩ ⟨1, 2⟩) (.Coor ⟨0, 2⟩ ⟨1, 2⟩) = .ok .Identity := by
  decide

/-! ### C3: every Ok output of scalar_mul passes the on-curve check -/

theorem EllipticCurve.compute_ok_on_curve {ec : EllipticCurve}
    {x1 y1 x2 s : FiniteField} {xy : FiniteField × FiniteField}
    (h : ec.compute_x3_y3 x1 y1 x2 s = .ok xy) :
    ec.is_on_curve (.Coor xy.1 xy.2) = .ok true := by
  unfold EllipticCurve.compute_x3_y3 at h
  obtain ⟨s2, _, h⟩ := Res.ok_of_bind_ok h
  obtain ⟨x12, _, h⟩ := Res.ok_of_bind_ok h
  obtain ⟨x3, _, h⟩ := Res.ok_of_bind_ok h
  obtain ⟨x1m, _, h⟩ := Res.ok_of_bind_ok h
  obtain ⟨st, _, h⟩ := Res.ok_of_bind_ok h
  obtain ⟨y3, _, h⟩ := Res.ok_of_bind_ok h
  obtain ⟨onc, honc, h⟩ := Res.ok_of_bind_ok h
  by_cases hb : onc = false
  · rw [if_pos hb] at h
    exact Res.noConfusion h
  · rw [if_neg hb] at h
    injection h with h
    subst h
    cases onc
    · exact absurd rfl hb
    · exact honc

theorem EllipticCurve.add_ok_on_curve {ec : EllipticCurve} {c d Q : Point}
    (h : ec.add c d = .ok Q) : ec.is_on_curve Q = .ok true := by
  unfold EllipticCurve.add at h
  obtain ⟨c_on, hc, h⟩ := Res.ok_of_bind_ok h
  by_cases hcf : c_on = false
  · rw [if_pos hcf] at h
    exact Res.noConfusion h
  rw [if_neg hcf] at h
  obtain ⟨d_on, hd, h⟩ := Res.ok_of_bind_ok h
  by_cases hdf : d_on = false
  · rw [if_pos hdf] at h
    exact Res.noConfusion h
  rw [if_neg hdf] at h
  have hct : ec.is_on_curve c = .ok true := by
    cases c_on
    · exact absurd rfl hcf
    · exact hc
  have hdt : ec.is_on_curve d = .ok true := by
    cases d_on
    · exact absurd rfl hdf
    · exact hd
  cases c with
  | Identity =>
    cases d with
    | Identity =>
      have h2 : Res.ok Point.Identity = Res.ok Q := h
      injection h2 with h2
      subst h2
      rfl
    | Coor x2 y2 =>
      have h2 : Res.ok (Point.Coor x2 y2) = Res.ok Q := h
      injection h2 with h2
      subst h2
      exact hdt
  | Coor x1 y1 =>
    cases d with
    | Identity =>
      have h2 : Res.ok (Point.Coor x1 y1) = Res.ok Q := h
      injection h2 with h2
      subst h2
      exact hct
    | Coor x2 y2 =>
      obtain ⟨inv, hinv, h⟩ := Res.ok_of_bind_ok h
      by_cases hi : inv = true
      · rw [if_pos hi] at h
        injection h with h
        subst h
        rfl
      · rw [if_neg hi] at h
        obtain ⟨sn, hsn, h⟩ := Res.ok_of_bind_ok h
        obtain ⟨sd, hsd, h⟩ := Res.ok_of_bind_ok h
        obtain ⟨s, hs, h⟩ := Res.ok_of_bind_ok h
        obtain ⟨xy, hxy, h⟩ := Res.ok_of_bind_ok h
        injection h with h
        subst h
        exact EllipticCurve.compute_ok_on_curve hxy

theorem EllipticCurve.double_ok_on_curve {ec : EllipticCurve} {c Q : Point}
    (h : ec.double c = .ok Q) : ec.is_on_curve Q = .ok true := by
  unfold EllipticCurve.double at h
  obtain ⟨c_on, hc, h⟩ := Res.ok_of_bind_ok h
  by_cases hcf : c_on = false
  · rw [if_pos hcf] at h
    exact Res.noConfusion h
  rw [if_neg hcf] at h
  cases c with
  | Identity =>
    injection h with h
    subst h
    rfl
  | Coor x1 y1 =>
    obtain ⟨xsq, _, h⟩ := Res.ok_of_bind_ok h
    obtain ⟨three, _, h⟩ := Res.ok_of_bind_ok h
    obtain ⟨t3, _, h⟩ := Res.ok_of_bind_ok h
    obtain ⟨sn, _, h⟩ := Res.ok_of_bind_ok h
    obtain ⟨two, _, h⟩ := Res.ok_of_bind_ok h
    obtain ⟨ty, _, h⟩ := Res.ok_of_bind_ok h
    obtain ⟨s, _, h⟩ := Res.ok_of_bind_ok h
    obtain ⟨xy, hxy, h⟩ := Res.ok_of_bind_ok h
    injection h with h
    subst h
    exact EllipticCurve.compute_ok_on_curve hxy

theorem EllipticCurve.scalar_mulF_on_curve {ec : EllipticCurve} :
    ∀ (fuel : Nat) (P : Point) (s : Nat) (Q : Point),
      ec.scalar_mulF fuel P s = .ok Q → ec.is_on_curve Q = .ok true := by
  intro fuel
  induction fuel with
  | zero =>
    intro P s Q h
    exact Res.noConfusion h
  | succ fuel ih =>
    intro P s Q h
    unfold EllipticCurve.scalar_mulF at h
    obtain ⟨p_on, hp, h⟩ := Res.ok_of_bind_ok h
    by_cases hpf : p_on = false
    · rw [if_pos hpf] at h
      exact Res.noConfusion h
    rw [if_neg hpf] at h
    have hpt : ec.is_on_curve P = .ok true := by
      cases p_on
      · exact absurd rfl hpf
      · exact hp
    by_cases h0 : s = 0
    · rw [if_pos h0] at h
      injection h with h
      subst h
      rfl
    rw [if_neg h0] at h
    by_cases h1 : s = 1
    · rw [if_pos h1] at h
      injection h with h
      subst h
      exact hpt
    rw [if_neg h1] at h
    by_cases h2 : s % 2 = 1
    · rw [if_pos h2] at h
      obtain ⟨r, hr, h⟩ := Res.ok_of_bind_ok h
      exact EllipticCurve.add_ok_on_curve h
    · rw [if_neg h2] at h
      obtain ⟨dp, hdp, h⟩ := Res.ok_of_bind_ok h
      exact ih dp (s / 2) Q h

/-- C3 (amended): whenever `scalar_mul(P, k)` returns `Ok(Q)`, the point `Q`
passes `is_on_curve` (the group-law helpers re-check their results).
Totality, however, fails: see the counterexample `scalar_mul(G, 21)`. -/
theorem c3_scalar_mul_on_curve (ec : EllipticCurve) (P : Point) (k : Nat)
    (Q : Point) (h : ec.scalar_mul P k = .ok Q) :
    ec.is_on_curve Q = .ok true :=
  EllipticCurve.scalar_mulF_on_curve (k + 1) P k Q h

/-- C3 (witness): `5·G = (9,16)` on the toy curve is on the curve. -/
theorem c3_scalar_mul_on_curve_witness :
    toyCurve.is_on_curve (toyPt 9 16) = .ok true :=
  c3_scalar_mul_on_curve toyCurve toyCurve.g 5 (toyPt 9 16) (by decide)

/-! ### Casting toolkit: reduced residues vs `ZMod p` -/

theorem nat_eq_of_cast_eq {p a b : Nat} (ha : a < p) (hb : b < p)
    (h : (a : ZMod p) = b) : a = b := by
  have h2 := (ZMod.natCast_eq_natCast_iff' a b p).mp h
  rwa [Nat.mod_eq_of_lt ha, Nat.mod_eq_of_lt hb] at h2

theorem cast_addp_sub {p x y : Nat} (hy : y ≤ x + p) :
    (((x + p - y) : Nat) : ZMod p) = (x : ZMod p) - y := by
  rw [Nat.cast_sub hy]
  push_cast
  rw [ZMod.natCast_self]
  ring

/-! ### C8: field division -/

/-- C8: for a prime modulus `p` and reduced operands over `p`, `div(a, b)`
fails with the divide-by-zero error exactly when `b = 0`; otherwise it
returns `a * b^(p-2) mod p`, and multiplying back by `b` recovers `a`
(Fermat's little theorem). -/
theorem c8_div (p : Nat) (hp : p.Prime) (a b : FiniteField)
    (hap : a.p = p) (hbp : b.p = p) (hav : a.value < p) (hbv : b.value < p) :
    (b.value = 0 → a.div b = .err "Cannot divide by zero") ∧
    (b.value ≠ 0 →
      a.div b = .ok ⟨(a.value * (b.value ^ (p - 2) % p)) % p, p⟩ ∧
      (a.div b).bind (fun q => q.mul b) = .ok a) := by
  obtain ⟨av, ap⟩ := a
  obtain ⟨bv, bp⟩ := b
  have hap' : p = ap := (hap : ap = p).symm
  have hbp' : p = bp := (hbp : bp = p).symm
  subst hap' hbp'
  simp only at hav hbv
  haveI : Fact p.Prime := ⟨hp⟩
  have hp2 : 2 ≤ p := hp.two_le
  constructor
  · intro h0
    exact FiniteField.div_zero_eval rfl h0
  · intro hb0
    have hdiv := FiniteField.div_eval (a := ⟨av, p⟩) (b := ⟨bv, p⟩) rfl hb0 hp2
    dsimp only at hdiv
    refine ⟨hdiv, ?_⟩
    rw [hdiv, Res.bind_ok_left,
      FiniteField.mul_eval (a := ⟨(av * (bv ^ (p - 2) % p)) % p, p⟩)
        (b := ⟨bv, p⟩) rfl]
    dsimp only
    have hnat : (av * (bv ^ (p - 2) % p)) % p * bv % p = av := by
      apply nat_eq_of_cast_eq (Nat.mod_lt _ (by omega)) hav
      have hbz : (bv : ZMod p) ≠ 0 := by
        intro hz
        exact hb0 (nat_eq_of_cast_eq hbv (by omega)
          (by rw [hz, Nat.cast_zero]))
      rw [ZMod.natCast_mod, Nat.cast_mul, ZMod.natCast_mod, Nat.cast_mul,
        ZMod.natCast_mod, Nat.cast_pow, mul_assoc, ← pow_succ,
        show p - 2 + 1 = p - 1 from by omega,
        ZMod.pow_card_sub_one_eq_one hbz, mul_one]
    rw [hnat]

/-- C8 (witness): the spec's own field example over `p = 7`: `2/4 = 4`,
`(2/4)·4 = 2`, and `2/0` fails. -/
theorem c8_div_witness :
    (FiniteField.mk 2 7).div ⟨4, 7⟩ = .ok ⟨(2 * (4 ^ (7 - 2) % 7)) % 7, 7⟩ ∧
    ((FiniteField.mk 2 7).div ⟨4, 7⟩).bind (fun q => q.mul ⟨4, 7⟩) = .ok ⟨2, 7⟩ ∧
    (FiniteField.mk 2 7).div ⟨0, 7⟩ = .err "Cannot divide by zero" :=
  ⟨((c8_div 7 (by decide) ⟨2, 7⟩ ⟨4, 7⟩ rfl rfl (by decide) (by decide)).2
      (by decide)).1,
   ((c8_div 7 (by decide) ⟨2, 7⟩ ⟨4, 7⟩ rfl rfl (by decide) (by decide)).2
      (by decide)).2,
   (c8_div 7 (by decide) ⟨2, 7⟩ ⟨0, 7⟩ rfl rfl (by decide) (by decide)).1 rfl⟩

/-! ### C10: add applied to equal affine points -/

/-- C10 (amended): over an odd modulus, adding an on-curve affine point with
nonzero `y` to itself reaches the zero slope denominator `x - x` and returns
the divide-by-zero error (callers needing `2·C` must use `double`). -/
theorem c10_add_self_div_zero (ec : EllipticCurve) (x y : FiniteField)
    (hodd : ec.p % 2 = 1)
    (hxp : x.p = ec.p) (hyp2 : y.p = ec.p) (hyv : y.value < ec.p)
    (hy0 : y.value ≠ 0)
    (hon : ec.is_on_curve (.Coor x y) = .ok true) :
    ec.add (.Coor x y) (.Coor x y) = .err "Cannot divide by zero" := by
  obtain ⟨xv, xp⟩ := x
  obtain ⟨yv, yp⟩ := y
  have hxp' : ec.p = xp := (hxp : xp = ec.p).symm
  subst hxp'
  have hyp' : ec.p = yp := (hyp2 : yp = ec.p).symm
  subst hyp'
  have hyv' : yv < ec.p := hyv
  have hy0' : yv ≠ 0 := hy0
  have hppos : 0 < ec.p := by omega
  unfold EllipticCurve.add
  simp only [hon, Res.bind]
  rw [if_neg (by decide : ¬(true = false))]
  rw [if_pos trivial]
  rw [FiniteField.add_eval (a := ⟨yv, ec.p⟩) (b := ⟨yv, ec.p⟩) rfl]
  simp only [Res.bind]
  rw [show FiniteField.new 0 ec.p = .ok ⟨0 % ec.p, ec.p⟩ from by
    unfold FiniteField.new
    rw [if_pos hppos]]
  simp only [Res.bind]
  have hsum : ((⟨(yv + yv) % ec.p, ec.p⟩ : FiniteField) == ⟨0 % ec.p, ec.p⟩) = false := by
    rw [beq_eq_false_iff_ne]
    intro hcontra
    have hv : (yv + yv) % ec.p = 0 % ec.p := congrArg FiniteField.value hcontra
    rw [Nat.zero_mod] at hv
    rcases Nat.lt_or_ge (yv + yv) ec.p with hlt | hge
    · rw [Nat.mod_eq_of_lt hlt] at hv
      omega
    · rw [Nat.mod_eq_sub_mod hge, Nat.mod_eq_of_lt (by omega)] at hv
      omega
  rw [hsum, if_neg (by decide : ¬(false = true))]
  rw [FiniteField.sub_eval (a := ⟨yv, ec.p⟩) (b := ⟨yv, ec.p⟩) rfl
    (Nat.le_add_right yv ec.p)]
  simp only [Res.bind]
  rw [FiniteField.sub_eval (a := ⟨xv, ec.p⟩) (b := ⟨xv, ec.p⟩) rfl
    (Nat.le_add_right xv ec.p)]
  simp only [Res.bind]
  rw [FiniteField.div_zero_eval (a := ⟨(yv + ec.p - yv) % ec.p, ec.p⟩)
    (b := ⟨(xv + ec.p - xv) % ec.p, ec.p⟩) rfl
    (show (xv + ec.p - xv) % ec.p = 0 from by
      rw [show xv + ec.p - xv = ec.p from by omega, Nat.mod_self])]
  simp only [Res.bind]
  rfl

/-- C10 (witness): `add(G, G)` on the toy curve is the divide-by-zero
error. -/
theorem c10_add_self_div_zero_witness :
    toyCurve.add (toyPt 5 1) (toyPt 5 1) = .err "Cannot divide by zero" :=
  c10_add_self_div_zero toyCurve ⟨5, 17⟩ ⟨1, 17⟩ (by decide) rfl rfl
    (by decide) (by decide) (by decide)

/-! ### C9: identity laws and commutativity of point addition -/

/-- The slope value `(y2 - y1)/(x2 - x1)` as the source computes it:
`sub` then `div` with the Fermat inverse, all on raw residues. -/
def slopeVal (p y1 x1 y2 x2 : Nat) : Nat :=
  (((y2 + p - y1) % p) * (((x2 + p - x1) % p) ^ (p - 2) % p)) % p

/-- `x3 = s^2 - x1 - x2` on raw residues, as computed by `compute_x3_y3`. -/
def x3Val (p s x1 x2 : Nat) : Nat :=
  ((s * s % p) + p - ((x1 + x2) % p)) % p

/-- `y3 = s*(x1 - x3) - y1` on raw residues, as computed by
`compute_x3_y3`. -/
def y3Val (p s x1 y1 x3 : Nat) : Nat :=
  ((s * ((x1 + p - x3) % p) % p) + p - y1) % p

theorem slopeVal_lt {p : Nat} (hp : 0 < p) {y1 x1 y2 x2 : Nat} :
    slopeVal p y1 x1 y2 x2 < p := by
  unfold slopeVal
  exact Nat.mod_lt _ hp

theorem x3Val_lt {p : Nat} (hp : 0 < p) {s x1 x2 : Nat} : x3Val p s x1 x2 < p := by
  unfold x3Val
  exact Nat.mod_lt _ hp

theorem y3Val_lt {p : Nat} (hp : 0 < p) {s x1 y1 x3 : Nat} :
    y3Val p s x1 y1 x3 < p := by
  unfold y3Val
  exact Nat.mod_lt _ hp

theorem diff_mod_ne_zero {p a1 a2 : Nat} (h1 : a1 < p) (h2 : a2 < p)
    (hne : a1 ≠ a2) : (a2 + p - a1) % p ≠ 0 := by
  intro h
  obtain ⟨c, hc⟩ := Nat.dvd_of_mod_eq_zero h
  match c with
  | 0 => omega
  | 1 => omega
  | (n + 2) =>
    have hge : p * 2 ≤ p * (n + 2) := Nat.mul_le_mul_left p (by omega)
    omega

theorem slopeVal_cast (p y1 x1 y2 x2 : Nat) (hy1 : y1 < p) (hx1 : x1 < p) :
    ((slopeVal p y1 x1 y2 x2 : Nat) : ZMod p)
      = ((y2 : ZMod p) - y1) * ((x2 : ZMod p) - x1) ^ (p - 2) := by
  unfold slopeVal
  simp only [ZMod.natCast_mod, Nat.cast_mul, Nat.cast_pow]
  rw [cast_addp_sub (le_trans hy1.le (Nat.le_add_left p y2)),
    cast_addp_sub (le_trans hx1.le (Nat.le_add_left p x2))]

theorem y3Val_cast (p s x1 y1 X : Nat) (hy1 : y1 < p) (hX : X < p) :
    ((y3Val p s x1 y1 X : Nat) : ZMod p)
      = (s : ZMod p) * ((x1 : ZMod p) - X) - y1 := by
  unfold y3Val
  rw [ZMod.natCast_mod,
    cast_addp_sub (le_trans hy1.le (Nat.le_add_left p _))]
  rw [ZMod.natCast_mod, Nat.cast_mul, ZMod.natCast_mod,
    cast_addp_sub (le_trans hX.le (Nat.le_add_left p x1))]

theorem slope_mul_den (p x1 y1 x2 y2 : Nat) (hp : p.Prime) (hx1 : x1 < p)
    (hy1 : y1 < p) (hx2 : x2 < p) (hne : x1 ≠ x2) :
    ((slopeVal p y1 x1 y2 x2 : Nat) : ZMod p) * ((x2 : ZMod p) - x1)
      = (y2 : ZMod p) - y1 := by
  haveI : Fact p.Prime := ⟨hp⟩
  have hd : (x2 : ZMod p) - (x1 : ZMod p) ≠ 0 := by
    intro h0
    exact hne (nat_eq_of_cast_eq hx1 hx2 (sub_eq_zero.mp h0).symm)
  rw [slopeVal_cast p y1 x1 y2 x2 hy1 hx1, mul_assoc, ← pow_succ,
    show p - 2 + 1 = p - 1 from by omega,
    ZMod.pow_card_sub_one_eq_one hd, mul_one]

theorem slopeVal_symm (p x1 y1 x2 y2 : Nat) (hp : p.Prime) (hx1 : x1 < p)
    (hy1 : y1 < p) (hx2 : x2 < p) (hy2 : y2 < p) (hne : x1 ≠ x2) :
    slopeVal p y1 x1 y2 x2 = slopeVal p y2 x2 y1 x1 := by
  haveI : Fact p.Prime := ⟨hp⟩
  have hp0 : 0 < p := hp.pos
  have hd : (x2 : ZMod p) - (x1 : ZMod p) ≠ 0 := by
    intro h0
    exact hne (nat_eq_of_cast_eq hx1 hx2 (sub_eq_zero.mp h0).symm)
  apply nat_eq_of_cast_eq (slopeVal_lt hp0) (slopeVal_lt hp0)
  apply mul_right_cancel₀ hd
  have h1 := slope_mul_den p x1 y1 x2 y2 hp hx1 hy1 hx2 hne
  have h2 := slope_mul_den p x2 y2 x1 y1 hp hx2 hy2 hx1 (Ne.symm hne)
  linear_combination h1 + h2

theorem y3Val_symm (p x1 y1 x2 y2 X : Nat) (hp : p.Prime) (hx1 : x1 < p)
    (hy1 : y1 < p) (hx2 : x2 < p) (hy2 : y2 < p) (hne : x1 ≠ x2) (hX : X < p) :
    y3Val p (slopeVal p y1 x1 y2 x2) x1 y1 X
      = y3Val p (slopeVal p y1 x1 y2 x2) x2 y2 X := by
  haveI : Fact p.Prime := ⟨hp⟩
  have hp0 : 0 < p := hp.pos
  apply nat_eq_of_cast_eq (y3Val_lt hp0) (y3Val_lt hp0)
  rw [y3Val_cast p _ x1 y1 X hy1 hX, y3Val_cast p _ x2 y2 X hy2 hX]
  have hkey := slope_mul_den p x1 y1 x2 y2 hp hx1 hy1 hx2 hne
  linear_combination -hkey

theorem FiniteField.new_eval {v p : Nat} (h : v < p) :
    FiniteField.new v p = .ok ⟨v % p, p⟩ := by
  unfold FiniteField.new
  rw [if_pos h]

theorem FiniteField.add_eval2 {p xv yv : Nat} :
    (⟨xv, p⟩ : FiniteField).add ⟨yv, p⟩ = .ok ⟨(xv + yv) % p, p⟩ :=
  FiniteField.add_eval rfl

theorem FiniteField.sub_eval2 {p xv yv : Nat} (h : yv ≤ xv + p) :
    (⟨xv, p⟩ : FiniteField).sub ⟨yv, p⟩ = .ok ⟨(xv + p - yv) % p, p⟩ :=
  FiniteField.sub_eval rfl h

theorem FiniteField.mul_eval2 {p xv yv : Nat} :
    (⟨xv, p⟩ : FiniteField).mul ⟨yv, p⟩ = .ok ⟨(xv * yv) % p, p⟩ :=
  FiniteField.mul_eval rfl

theorem FiniteField.div_eval2 {p xv yv : Nat} (hy : yv ≠ 0) (h2 : 2 ≤ p) :
    (⟨xv, p⟩ : FiniteField).div ⟨yv, p⟩
      = .ok ⟨(xv * (yv ^ (p - 2) % p)) % p, p⟩ :=
  FiniteField.div_eval rfl hy h2

theorem FiniteField.div_zero_eval2 {p xv yv : Nat} (hy : yv = 0) :
    (⟨xv, p⟩ : FiniteField).div ⟨yv, p⟩ = .err "Cannot divide by zero" :=
  FiniteField.div_zero_eval rfl hy

/-- Coordinates of a point are field elements over `p` in reduced form. -/
def Point.reduced : Point → Nat → Prop
  | .Identity, _ => True
  | .Coor x y, p => x.p = p ∧ y.p = p ∧ x.value < p ∧ y.value < p

instance (c : Point) (p : Nat) : Decidable (c.reduced p) :=
  match c with
  | .Identity => isTrue trivial
  | .Coor x y =>
    inferInstanceAs (Decidable (x.p = p ∧ y.p = p ∧ x.value < p ∧ y.value < p))

theorem EllipticCurve.add_coor_eval (ec : EllipticCurve) (x1v y1v x2v y2v : Nat)
    (h2 : 2 ≤ ec.p) (hx1 : x1v < ec.p) (hy1 : y1v < ec.p) (hx2 : x2v < ec.p)
    (hy2 : y2v < ec.p) (hne : x1v ≠ x2v)
    (hoc : ec.is_on_curve (.Coor ⟨x1v, ec.p⟩ ⟨y1v, ec.p⟩) = .ok true)
    (hod : ec.is_on_curve (.Coor ⟨x2v, ec.p⟩ ⟨y2v, ec.p⟩) = .ok true) :
    ec.add (.Coor ⟨x1v, ec.p⟩ ⟨y1v, ec.p⟩) (.Coor ⟨x2v, ec.p⟩ ⟨y2v, ec.p⟩) =
      ((ec.is_on_curve (.Coor
          ⟨x3Val ec.p (slopeVal ec.p y1v x1v y2v x2v) x1v x2v, ec.p⟩
          ⟨y3Val ec.p (slopeVal ec.p y1v x1v y2v x2v) x1v y1v
            (x3Val ec.p (slopeVal ec.p y1v x1v y2v x2v) x1v x2v), ec.p⟩)).bind
        fun onc =>
          if onc = false then Res.err "Resulting point is not on the curve"
          else Res.ok
            (⟨x3Val ec.p (slopeVal ec.p y1v x1v y2v x2v) x1v x2v, ec.p⟩,
             ⟨y3Val ec.p (slopeVal ec.p y1v x1v y2v x2v) x1v y1v
               (x3Val ec.p (slopeVal ec.p y1v x1v y2v x2v) x1v x2v), ec.p⟩)).bind
        fun xy => Res.ok (.Coor xy.1 xy.2) := by
  have hppos : 0 < ec.p := by omega
  have hxx : (⟨x1v, ec.p⟩ : FiniteField) ≠ ⟨x2v, ec.p⟩ := fun h =>
    hne (congrArg FiniteField.value h)
  unfold EllipticCurve.add
  simp only [hoc, hod, Res.bind]
  rw [if_neg hxx]
  simp only [Res.bind]
  rw [FiniteField.sub_eval2 (le_trans hy1.le (Nat.le_add_left ec.p y2v))]
  simp only [Res.bind]
  rw [FiniteField.sub_eval2 (le_trans hx1.le (Nat.le_add_left ec.p x2v))]
  simp only [Res.bind]
  rw [FiniteField.div_eval2 (diff_mod_ne_zero hx1 hx2 hne) h2]
  simp only [Res.bind]
  unfold EllipticCurve.compute_x3_y3
  rw [FiniteField.mul_eval2]
  simp only [Res.bind]
  rw [FiniteField.add_eval2]
  simp only [Res.bind]
  rw [FiniteField.sub_eval2 (le_trans (Nat.mod_lt (x1v + x2v) hppos).le
    (Nat.le_add_left ec.p _))]
  simp only [Res.bind]
  rw [FiniteField.sub_eval2 (le_trans (Nat.mod_lt _ hppos).le
    (Nat.le_add_left ec.p x1v))]
  simp only [Res.bind]
  rw [FiniteField.mul_eval2]
  simp only [Res.bind]
  rw [FiniteField.sub_eval2 (le_trans hy1.le (Nat.le_add_left ec.p _))]
  simp only [Res.bind]
  rfl

/-- C9: for a prime modulus and reduced on-curve points, `add(P, Identity)`
and `add(Identity, P)` return `P`, and `add(P, Q) = add(Q, P)` for `P ≠ Q`
(including the cases where both sides are the divide-by-zero error). -/
theorem c9_add_identity_comm (ec : EllipticCurve) (P Q : Point)
    (hp : ec.p.Prime) (hPr : P.reduced ec.p) (hQr : Q.reduced ec.p)
    (honP : ec.is_on_curve P = .ok true) (honQ : ec.is_on_curve Q = .ok true)
    (hne : P ≠ Q) :
    ec.add P .Identity = .ok P ∧ ec.add .Identity P = .ok P ∧
    ec.add P Q = ec.add Q P := by
  have hp2 : 2 ≤ ec.p := hp.two_le
  have hppos : 0 < ec.p := hp.pos
  refine ⟨?_, ?_, ?_⟩
  · cases P with
    | Identity => rfl
    | Coor x y =>
      unfold EllipticCurve.add
      simp only [honP, Res.bind]
      rfl
  · cases P with
    | Identity => rfl
    | Coor x y =>
      unfold EllipticCurve.add
      simp only [honP, Res.bind]
      rfl
  · cases P with
    | Identity =>
      cases Q with
      | Identity => exact absurd rfl hne
      | Coor x2 y2 =>
        unfold EllipticCurve.add
        simp only [honQ, Res.bind]
        rfl
    | Coor x1 y1 =>
      cases Q with
      | Identity =>
        unfold EllipticCurve.add
        simp only [honP, Res.bind]
        rfl
      | Coor x2 y2 =>
        obtain ⟨hx1p, hy1p, hx1v, hy1v⟩ := hPr
        obtain ⟨hx2p, hy2p, hx2v, hy2v⟩ := hQr
        obtain ⟨x1v, x1p⟩ := x1
        obtain ⟨y1v, y1p⟩ := y1
        obtain ⟨x2v, x2p⟩ := x2
        obtain ⟨y2v, y2p⟩ := y2
        have e1 : ec.p = x1p := (hx1p : x1p = ec.p).symm
        subst e1
        have e2 : ec.p = y1p := (hy1p : y1p = ec.p).symm
        subst e2
        have e3 : ec.p = x2p := (hx2p : x2p = ec.p).symm
        subst e3
        have e4 : ec.p = y2p := (hy2p : y2p = ec.p).symm
        subst e4
        have hx1v' : x1v < ec.p := hx1v
        have hy1v' : y1v < ec.p := hy1v
        have hx2v' : x2v < ec.p := hx2v
        have hy2v' : y2v < ec.p := hy2v
        by_cases hx : x1v = x2v
        · subst hx
          unfold EllipticCurve.add
          simp only [honP, honQ, Res.bind, eq_self_iff_true, if_true]
          rw [FiniteField.add_eval2, FiniteField.add_eval2]
          simp only [Res.bind]
          rw [FiniteField.new_eval hppos]
          simp only [Res.bind]
          rw [Nat.add_comm y2v y1v]
          by_cases hz :
              ((⟨(y1v + y2v) % ec.p, ec.p⟩ : FiniteField) == ⟨0 % ec.p, ec.p⟩)
                = true
          · simp only [hz]
            rfl
          · have hz' :
                ((⟨(y1v + y2v) % ec.p, ec.p⟩ : FiniteField) == ⟨0 % ec.p, ec.p⟩)
                  = false := by
              cases hbe :
                ((⟨(y1v + y2v) % ec.p, ec.p⟩ : FiniteField) == ⟨0 % ec.p, ec.p⟩)
              · rfl
              · exact absurd hbe hz
            simp only [hz']
            rw [FiniteField.sub_eval2 (le_trans hy1v'.le (Nat.le_add_left ec.p y2v))]
            rw [FiniteField.sub_eval2 (le_trans hy2v'.le (Nat.le_add_left ec.p y1v))]
            rw [FiniteField.sub_eval2 (Nat.le_add_right x1v ec.p)]
            simp only [Res.bind]
            have hden0 : (x1v + ec.p - x1v) % ec.p = 0 := by
              rw [show x1v + ec.p - x1v = ec.p from by omega, Nat.mod_self]
            rw [FiniteField.div_zero_eval2 hden0]
            rw [FiniteField.div_zero_eval2 hden0]
        · rw [EllipticCurve.add_coor_eval ec x1v y1v x2v y2v hp2 hx1v' hy1v'
            hx2v' hy2v' hx honP honQ]
          rw [EllipticCurve.add_coor_eval ec x2v y2v x1v y1v hp2 hx2v' hy2v'
            hx1v' hy1v' (Ne.symm hx) honQ honP]
          rw [← slopeVal_symm ec.p x1v y1v x2v y2v hp hx1v' hy1v' hx2v' hy2v' hx]
          rw [show x3Val ec.p (slopeVal ec.p y1v x1v y2v x2v) x2v x1v
                = x3Val ec.p (slopeVal ec.p y1v x1v y2v x2v) x1v x2v from by
            unfold x3Val
            rw [Nat.add_comm x2v x1v]]
          rw [show y3Val ec.p (slopeVal ec.p y1v x1v y2v x2v) x2v y2v
                  (x3Val ec.p (slopeVal ec.p y1v x1v y2v x2v) x1v x2v)
                = y3Val ec.p (slopeVal ec.p y1v x1v y2v x2v) x1v y1v
                  (x3Val ec.p (slopeVal ec.p y1v x1v y2v x2v) x1v x2v) from
            (y3Val_symm ec.p x1v y1v x2v y2v
              (x3Val ec.p (slopeVal ec.p y1v x1v y2v x2v) x1v x2v) hp hx1v'
              hy1v' hx2v' hy2v' hx (x3Val_lt hppos)).symm]

/-- C9 (witness): the identity laws and commutativity applied at
`P = G = (5,1)`, `Q = 2·G = (6,3)` on the toy curve. -/
theorem c9_add_identity_comm_witness :
    toyCurve.add (toyPt 5 1) .Identity = .ok (toyPt 5 1) ∧
    toyCurve.add .Identity (toyPt 5 1) = .ok (toyPt 5 1) ∧
    toyCurve.add (toyPt 5 1) (toyPt 6 3) = toyCurve.add (toyPt 6 3) (toyPt 5 1) :=
  c9_add_identity_comm toyCurve (toyPt 5 1) (toyPt 6 3) (by decide) (by decide)
    (by decide) (by decide) (by decide) (by decide)

/-! ### C2: panic-freedom under reduced inputs -/

/-- Outcome predicate: the computation did not panic, and any `ok` value
satisfies `W` (errors are allowed). -/
def Res.Ensures {α : Type} : Res α → (α → Prop) → Prop
  | .ok a, W => W a
  | .err _, _ => True
  | .panicked, _ => False

theorem Res.ensures_bind {α β : Type} {x : Res α} {W : α → Prop}
    {V : β → Prop} {f : α → Res β} (hx : x.Ensures W)
    (hf : ∀ a, W a → (f a).Ensures V) : (x.bind f).Ensures V := by
  cases x with
  | ok a => exact hf a hx
  | err s => trivial
  | panicked => exact hx.elim

theorem Res.ensures_weaken {α : Type} {x : Res α} {W V : α → Prop}
    (h : x.Ensures W) (hwv : ∀ a, W a → V a) : x.Ensures V := by
  cases x with
  | ok a => exact hwv a h
  | err s => trivial
  | panicked => exact h.elim

theorem Res.ne_panic_of_ensures {α : Type} {x : Res α} {W : α → Prop}
    (h : x.Ensures W) : x ≠ .panicked := by
  cases x with
  | ok a => exact fun hc => Res.noConfusion hc
  | err s => exact fun hc => Res.noConfusion hc
  | panicked => exact h.elim

/-- A field element is in reduced form over the modulus `p`. -/
def FiniteField.reduced (f : FiniteField) (p : Nat) : Prop :=
  f.p = p ∧ f.value < p

theorem FiniteField.new_ens {v p : Nat} (h : v < p) :
    (FiniteField.new v p).Ensures (fun c => c.reduced p) := by
  rw [FiniteField.new_eval h]
  exact ⟨rfl, Nat.mod_lt _ (by omega)⟩

theorem FiniteField.add_no_panic (a b : FiniteField) :
    (a.add b).Ensures (fun _ => True) := by
  unfold FiniteField.add
  by_cases h : a.p ≠ b.p
  · rw [if_pos h]
    trivial
  · rw [if_neg h]
    trivial

theorem FiniteField.mul_no_panic (a b : FiniteField) :
    (a.mul b).Ensures (fun _ => True) := by
  unfold FiniteField.mul
  by_cases h : a.p ≠ b.p
  · rw [if_pos h]
    trivial
  · rw [if_neg h]
    trivial

theorem FiniteField.add_ens {p : Nat} {a : FiniteField} (b : FiniteField)
    (hp : 0 < p) (ha : a.reduced p) :
    (a.add b).Ensures (fun c => c.reduced p) := by
  unfold FiniteField.add
  by_cases h : a.p ≠ b.p
  · rw [if_pos h]
    trivial
  · rw [if_neg h]
    exact ⟨ha.1, by rw [ha.1]; exact Nat.mod_lt _ hp⟩

theorem FiniteField.mul_ens {p : Nat} {a : FiniteField} (b : FiniteField)
    (hp : 0 < p) (ha : a.reduced p) :
    (a.mul b).Ensures (fun c => c.reduced p) := by
  unfold FiniteField.mul
  by_cases h : a.p ≠ b.p
  · rw [if_pos h]
    trivial
  · rw [if_neg h]
    exact ⟨ha.1, by rw [ha.1]; exact Nat.mod_lt _ hp⟩

theorem FiniteField.sub_ens {p : Nat} {a b : FiniteField} (hp : 0 < p)
    (ha : a.p = p) (hb : b.value < b.p) :
    (a.sub b).Ensures (fun c => c.reduced p) := by
  unfold FiniteField.sub
  by_cases h : a.p ≠ b.p
  · rw [if_pos h]
    trivial
  · rw [if_neg h]
    have hpp : a.p = b.p := not_not.mp h
    rw [if_neg (by omega)]
    exact ⟨ha, by rw [ha]; exact Nat.mod_lt _ hp⟩

theorem FiniteField.div_ens {p : Nat} {a : FiniteField} (b : FiniteField)
    (h2 : 2 ≤ p) (ha : a.p = p) :
    (a.div b).Ensures (fun c => c.reduced p) := by
  unfold FiniteField.div
  by_cases h : a.p ≠ b.p
  · rw [if_pos h]
    trivial
  · rw [if_neg h]
    by_cases hz : b.value = 0
    · rw [if_pos hz]
      trivial
    · rw [if_neg hz, if_neg (by omega)]
      exact ⟨ha, by rw [ha]; exact Nat.mod_lt _ (by omega)⟩

theorem EllipticCurve.is_on_curve_ens (ec : EllipticCurve) (c : Point) :
    (ec.is_on_curve c).Ensures (fun _ => True) := by
  cases c with
  | Identity => trivial
  | Coor x y =>
    unfold EllipticCurve.is_on_curve
    apply Res.ensures_bind (FiniteField.mul_no_panic y y)
    intro y2 _
    apply Res.ensures_bind (Res.ensures_bind (FiniteField.mul_no_panic x x)
      (fun xx _ => FiniteField.mul_no_panic xx x))
    intro x3 _
    apply Res.ensures_bind (FiniteField.mul_no_panic ec.a x)
    intro ax _
    apply Res.ensures_bind (Res.ensures_bind (FiniteField.add_no_panic x3 ax)
      (fun t _ => FiniteField.add_no_panic t ec.b))
    intro rs _
    trivial

theorem EllipticCurve.compute_ens (ec : EllipticCurve) {x1 y1 x2 s : FiniteField}
    (hp : 0 < ec.p) (hs : s.reduced ec.p) (hx1 : x1.reduced ec.p)
    (hy1 : y1.value < y1.p) :
    (ec.compute_x3_y3 x1 y1 x2 s).Ensures
      (fun xy => xy.1.reduced ec.p ∧ xy.2.reduced ec.p) := by
  unfold EllipticCurve.compute_x3_y3
  apply Res.ensures_bind (FiniteField.mul_ens s hp hs)
  intro s2 hs2
  apply Res.ensures_bind (FiniteField.add_ens x2 hp hx1)
  intro x12 hx12
  apply Res.ensures_bind (FiniteField.sub_ens hp hs2.1
    (by rw [hx12.1]; exact hx12.2))
  intro x3 hx3
  apply Res.ensures_bind (FiniteField.sub_ens hp hx1.1
    (by rw [hx3.1]; exact hx3.2))
  intro x1m hx1m
  apply Res.ensures_bind (FiniteField.mul_ens x1m hp hs)
  intro st hst
  apply Res.ensures_bind (FiniteField.sub_ens hp hst.1 hy1)
  intro y3 hy3
  apply Res.ensures_bind (EllipticCurve.is_on_curve_ens ec _)
  intro onc _
  by_cases hb : onc = false
  · rw [if_pos hb]
    trivial
  · rw [if_neg hb]
    exact ⟨hx3, hy3⟩

theorem EllipticCurve.add_point_ens (ec : EllipticCurve) {c d : Point}
    (h2 : 2 ≤ ec.p) (hc : c.reduced ec.p) (hd : d.reduced ec.p) :
    (ec.add c d).Ensures (fun q => q.reduced ec.p) := by
  have hp : 0 < ec.p := by omega
  unfold EllipticCurve.add
  apply Res.ensures_bind (EllipticCurve.is_on_curve_ens ec c)
  intro con _
  by_cases hcf : con = false
  · rw [if_pos hcf]
    trivial
  rw [if_neg hcf]
  apply Res.ensures_bind (EllipticCurve.is_on_curve_ens ec d)
  intro don _
  by_cases hdf : don = false
  · rw [if_pos hdf]
    trivial
  rw [if_neg hdf]
  cases c with
  | Identity =>
    cases d with
    | Identity => trivial
    | Coor x2 y2 => exact hd
  | Coor x1 y1 =>
    cases d with
    | Identity => exact hc
    | Coor x2 y2 =>
      obtain ⟨hx1p, hy1p, hx1v, hy1v⟩ := hc
      obtain ⟨hx2p, hy2p, hx2v, hy2v⟩ := hd
      apply Res.ensures_bind (W := fun _ => True)
      · by_cases hxx : x1 = x2
        · rw [if_pos hxx]
          apply Res.ensures_bind (FiniteField.add_no_panic y1 y2)
          intro ys _
          apply Res.ensures_bind (FiniteField.new_ens hp)
          intro z _
          trivial
        · rw [if_neg hxx]
          trivial
      · intro inv _
        by_cases hi : inv = true
        · rw [if_pos hi]
          trivial
        · rw [if_neg hi]
          apply Res.ensures_bind (FiniteField.sub_ens hp hy2p
            (by rw [hy1p]; exact hy1v))
          intro sn hsn
          apply Res.ensures_bind (FiniteField.sub_ens hp hx2p
            (by rw [hx1p]; exact hx1v))
          intro sd hsd
          apply Res.ensures_bind (FiniteField.div_ens sd h2 hsn.1)
          intro sl hsl
          apply Res.ensures_bind (EllipticCurve.compute_ens ec hp hsl
            ⟨hx1p, hx1v⟩ (by rw [hy1p]; exact hy1v))
          intro xy hxy
          exact ⟨hxy.1.1, hxy.2.1, hxy.1.2, hxy.2.2⟩

theorem EllipticCurve.double_ens (ec : EllipticCurve) {c : Point}
    (h3 : 3 < ec.p) (hc : c.reduced ec.p) :
    (ec.double c).Ensures (fun q => q.reduced ec.p) := by
  have hp : 0 < ec.p := by omega
  unfold EllipticCurve.double
  apply Res.ensures_bind (EllipticCurve.is_on_curve_ens ec c)
  intro con _
  by_cases hcf : con = false
  · rw [if_pos hcf]
    trivial
  rw [if_neg hcf]
  cases c with
  | Identity => trivial
  | Coor x1 y1 =>
    obtain ⟨hx1p, hy1p, hx1v, hy1v⟩ := hc
    apply Res.ensures_bind (FiniteField.mul_ens x1 hp ⟨hx1p, hx1v⟩)
    intro xsq hxsq
    apply Res.ensures_bind (FiniteField.new_ens h3)
    intro three _
    apply Res.ensures_bind (FiniteField.mul_ens three hp hxsq)
    intro t3 ht3
    apply Res.ensures_bind (FiniteField.add_ens ec.a hp ht3)
    intro sn hsn
    apply Res.ensures_bind (FiniteField.new_ens (show (2:Nat) < ec.p by omega))
    intro two _
    apply Res.ensures_bind (FiniteField.mul_ens two hp ⟨hy1p, hy1v⟩)
    intro ty hty
    apply Res.ensures_bind (FiniteField.div_ens ty (by omega) hsn.1)
    intro sl hsl
    apply Res.ensures_bind (EllipticCurve.compute_ens ec hp hsl
      ⟨hx1p, hx1v⟩ (by rw [hy1p]; exact hy1v))
    intro xy hxy
    exact ⟨hxy.1.1, hxy.2.1, hxy.1.2, hxy.2.2⟩

theorem EllipticCurve.scalar_mulF_ens (ec : EllipticCurve) (h3 : 3 < ec.p) :
    ∀ (fuel : Nat) (P : Point) (s : Nat), P.reduced ec.p →
      (ec.scalar_mulF fuel P s).Ensures (fun q => q.reduced ec.p) := by
  intro fuel
  induction fuel with
  | zero =>
    intro P s hP
    trivial
  | succ fuel ih =>
    intro P s hP
    unfold EllipticCurve.scalar_mulF
    apply Res.ensures_bind (EllipticCurve.is_on_curve_ens ec P)
    intro pon _
    by_cases hpf : pon = false
    · rw [if_pos hpf]
      trivial
    rw [if_neg hpf]
    by_cases h0 : s = 0
    · rw [if_pos h0]
      trivial
    rw [if_neg h0]
    by_cases h1 : s = 1
    · rw [if_pos h1]
      exact hP
    rw [if_neg h1]
    by_cases hodd : s % 2 = 1
    · rw [if_pos hodd]
      apply Res.ensures_bind (ih P (s - 1) hP)
      intro r hr
      exact EllipticCurve.add_point_ens ec (by omega) hP hr
    · rw [if_neg hodd]
      apply Res.ensures_bind (EllipticCurve.double_ens ec h3 hP)
      intro dp hdp
      exact ih dp (s / 2) hdp

theorem EllipticCurve.scalar_mul_ens (ec : EllipticCurve) (h3 : 3 < ec.p)
    (P : Point) (s : Nat) (hP : P.reduced ec.p) :
    (ec.scalar_mul P s).Ensures (fun q => q.reduced ec.p) :=
  EllipticCurve.scalar_mulF_ens ec h3 (s + 1) P s hP

theorem calculate_s_field_ens {p : Nat} {hf rf df : FiniteField} (k : Nat)
    (h2 : 2 ≤ p) (hk : k < p) (hrf : rf.reduced p) (hhf : hf.reduced p) :
    (calculate_s_field hf rf df k p).Ensures (fun c => c.reduced p) := by
  have hp : 0 < p := by omega
  unfold calculate_s_field
  apply Res.ensures_bind (FiniteField.new_ens hk)
  intro kf _
  apply Res.ensures_bind (FiniteField.mul_ens df hp hrf)
  intro rd _
  apply Res.ensures_bind (FiniteField.add_ens rd hp hhf)
  intro num hnum
  exact FiniteField.div_ens kf h2 hnum.1

theorem EcdsaSignature.verifyP_ens (ec : EllipticCurve) (e : Nat) (pk : Point)
    (r s : Nat) (h3 : 3 < ec.p) (hg : ec.g.reduced ec.p)
    (hpk : pk.reduced ec.p) (he : e < ec.p) (hr : r < ec.p) (hs : s < ec.p) :
    (EcdsaSignature.verifyP ec e pk r s).Ensures (fun _ => True) := by
  have hp : 0 < ec.p := by omega
  unfold EcdsaSignature.verifyP
  apply Res.ensures_bind (FiniteField.new_ens he)
  intro hf hhf
  apply Res.ensures_bind (FiniteField.new_ens hs)
  intro sf hsf
  apply Res.ensures_bind (FiniteField.new_ens (show (1:Nat) < ec.p by omega))
  intro onef honef
  apply Res.ensures_bind (FiniteField.div_ens sf (by omega) honef.1)
  intro w hw
  apply Res.ensures_bind (FiniteField.mul_ens w hp hhf)
  intro u1 hu1
  apply Res.ensures_bind (FiniteField.new_ens hr)
  intro rf hrf
  apply Res.ensures_bind (FiniteField.mul_ens w hp hrf)
  intro u2 hu2
  apply Res.ensures_bind (EllipticCurve.scalar_mul_ens ec h3 ec.g _ hg)
  intro u1p hu1p
  apply Res.ensures_bind (EllipticCurve.scalar_mul_ens ec h3 pk _ hpk)
  intro u2p hu2p
  exact Res.ensures_weaken (EllipticCurve.add_point_ens ec (by omega) hu1p hu2p)
    (fun _ _ => trivial)

theorem EcdsaSignature.verify_ens (ec : EllipticCurve) (e : Nat) (pk : Point)
    (r s : Nat) (h3 : 3 < ec.p) (hg : ec.g.reduced ec.p)
    (hpk : pk.reduced ec.p) (he : e < ec.p) (hr : r < ec.p) (hs : s < ec.p) :
    (EcdsaSignature.verify ec e pk r s).Ensures (fun _ => True) := by
  unfold EcdsaSignature.verify
  apply Res.ensures_bind
    (EcdsaSignature.verifyP_ens ec e pk r s h3 hg hpk he hr hs)
  intro pnt _
  cases pnt with
  | Coor x y =>
    apply Res.ensures_bind (FiniteField.new_ens hr)
    intro rf _
    trivial
  | Identity => trivial

theorem EcdsaSignature.sign_ens (ec : EllipticCurve) (e d k : Nat)
    (h3 : 3 < ec.p) (hg : ec.g.reduced ec.p) (he : e < ec.p) (hd : d < ec.p)
    (hk : k < ec.p) :
    (EcdsaSignature.sign ec e d k).Ensures (fun _ => True) := by
  unfold EcdsaSignature.sign
  apply Res.ensures_bind (EllipticCurve.scalar_mul_ens ec h3 ec.g k hg)
  intro rp hrp
  cases rp with
  | Identity => trivial
  | Coor x y =>
    obtain ⟨hxp, hyq, hxv, hyv⟩ := hrp
    apply Res.ensures_bind (FiniteField.new_ens hxv)
    intro rf hrf
    apply Res.ensures_bind (FiniteField.new_ens hd)
    intro df hdf
    apply Res.ensures_bind (FiniteField.new_ens he)
    intro hfe hhfe
    apply Res.ensures_bind (calculate_s_field_ens k (by omega) hk hrf hhfe)
    intro sfld _
    trivial

/-- C2 (amended): with all raw integer inputs below the curve modulus
(`p > 3`) and the base point / public key in reduced form, `verify` and
`sign` return a value or an error kind and never panic; the counterexample
shows the claim fails as stated once `s ≥ p` or `d ≥ p`. -/
theorem c2_no_panic (ec : EllipticCurve) (e d k r s : Nat) (pk : Point)
    (h3 : 3 < ec.p) (hg : ec.g.reduced ec.p) (hpk : pk.reduced ec.p)
    (he : e < ec.p) (hr : r < ec.p) (hs : s < ec.p) (hd : d < ec.p)
    (hk : k < ec.p) :
    EcdsaSignature.verify ec e pk r s ≠ .panicked ∧
    EcdsaSignature.sign ec e d k ≠ .panicked :=
  ⟨Res.ne_panic_of_ensures
    (EcdsaSignature.verify_ens ec e pk r s h3 hg hpk he hr hs),
   Res.ne_panic_of_ensures (EcdsaSignature.sign_ens ec e d k h3 hg he hd hk)⟩

/-- C2 (witness): the amended no-panic claim at concrete in-range toy-curve
inputs. -/
theorem c2_no_panic_witness :
    EcdsaSignature.verify toyCurve 1 toyCurve.g 1 1 ≠ .panicked ∧
    EcdsaSignature.sign toyCurve 1 1 1 ≠ .panicked :=
  c2_no_panic toyCurve 1 1 1 1 1 toyCurve.g (by decide) (by decide) (by decide)
    (by decide) (by decide) (by decide) (by decide) (by decide)
